import Mathlib

set_option linter.unusedVariables false

/-!
Verification of the party-ledger and stock-reconciliation core of the
vignaharta-billing application.

Modelling conventions:
* JS numbers (currency amounts, stock quantities in bags or kg) are modelled
  as exact rationals.  The specification treats monetary and stock values as
  plain decimal numbers, and every arithmetic operation appearing in the
  claims (division by 30, sums, max with 0) is exact on rationals.
* Date strings are modelled by their epoch timestamp as an integer.  The
  comparisons in the source go through Date parsing, which is
  order-preserving on the date strings the application stores.
* JS Map objects are modelled as association lists in insertion order,
  which is the iteration order of a JS Map.
* The backing item store is an HTTP backend that is not part of the
  repository.  It is modelled from the spec, section 6: a named collection
  is read in full, and an update replaces the document carrying the given id.
-/

/-! ### Ledger engine data model

The three ledger folds in the source are line-identical up to field naming:
SupplierManager.getAllSuppliers (src/utils/supplierManager.ts, fields
supplierName / totalAmount / paid / totalBilled), CustomerManager.getAllCustomers
(src/unnamed/part_004, fields customerName / totalAmount / received /
totalInvoiced) and PartyManager.getAllCustomers with PartyManager.getAllSuppliers
(src/unnamed/part_006).  The model uses the neutral field names partyName,
amount and totalBilled for all of them.
-/

/-- A billing document (sale invoice or purchase bill): the fields of the
entries the ledger folds read.  partyName is customerName or supplierName in
the source; date is the epoch timestamp of the document date string. -/
structure BillingDoc where
  partyName : String
  phoneNumber : String
  totalAmount : ℚ
  date : Int
deriving DecidableEq

/-- A payment record (payment-in or payment-out).  amount is the field named
received (customer payments) or paid (supplier payments) in the source. -/
structure PaymentRec where
  partyName : String
  phoneNumber : String
  amount : ℚ
  date : Int
deriving DecidableEq

/-- One derived party-ledger record, as built by the getAllCustomers and
getAllSuppliers folds.  totalBilled is named totalInvoiced in the customer
variants of the source. -/
structure PartyRec where
  id : String
  name : String
  phoneNumber : String
  totalBilled : ℚ
  totalPaid : ℚ
  balance : ℚ
  lastTransactionDate : Int
deriving DecidableEq

/-- JS String.prototype.toLowerCase: lower-case every character.  This is
extensionally the core String.toLower, re-stated over the character list so
that concrete party keys evaluate inside the kernel. -/
def jsToLower (s : String) : String := ⟨s.data.map Char.toLower⟩

/-- Grouping key of a party, from the source template
lowercase(partyName) - phoneNumber. -/
def partyKey (name phoneNumber : String) : String :=
  jsToLower name ++ "-" ++ phoneNumber

/-- Key of a billing document. -/
def docKey (d : BillingDoc) : String := partyKey d.partyName d.phoneNumber

/-- Key of a payment. -/
def payKey (p : PaymentRec) : String := partyKey p.partyName p.phoneNumber

/-- The in-place mutation of an existing record by one document:
existing.totalBilled += totalAmount, then balance is recomputed from the
updated totalBilled, then lastTransactionDate is bumped if the document date
is strictly newer. -/
def docUpd (d : BillingDoc) (r : PartyRec) : PartyRec :=
  { r with
    totalBilled := r.totalBilled + d.totalAmount,
    balance := r.totalBilled + d.totalAmount - r.totalPaid,
    lastTransactionDate :=
      if r.lastTransactionDate < d.date then d.date
      else r.lastTransactionDate }

/-- The fresh record inserted for a first document of a key. -/
def freshDoc (d : BillingDoc) : PartyRec :=
  { id := docKey d, name := d.partyName, phoneNumber := d.phoneNumber,
    totalBilled := d.totalAmount, totalPaid := 0,
    balance := d.totalAmount, lastTransactionDate := d.date }

/-- Fold one billing document into the accumulating party map (the Process
bills / Process invoices forEach body of the source).  If the key exists the
record is updated in place, keeping its map position; otherwise a fresh
record is inserted at the end, as a JS Map does. -/
def applyDoc (m : List PartyRec) (d : BillingDoc) : List PartyRec :=
  match m.find? (fun r => r.id == docKey d) with
  | some _ => m.map fun r => if r.id == docKey d then docUpd d r else r
  | none => m ++ [freshDoc d]

/-- The in-place mutation of an existing record by one payment:
existing.totalPaid += amount, then balance is recomputed from the updated
totalPaid, then lastTransactionDate is bumped if the payment date is
strictly newer. -/
def payUpd (p : PaymentRec) (r : PartyRec) : PartyRec :=
  { r with
    totalPaid := r.totalPaid + p.amount,
    balance := r.totalBilled - (r.totalPaid + p.amount),
    lastTransactionDate :=
      if r.lastTransactionDate < p.date then p.date
      else r.lastTransactionDate }

/-- The fresh record inserted for a first payment of a key. -/
def freshPay (p : PaymentRec) : PartyRec :=
  { id := payKey p, name := p.partyName, phoneNumber := p.phoneNumber,
    totalBilled := 0, totalPaid := p.amount,
    balance := -p.amount, lastTransactionDate := p.date }

/-- Fold one payment into the accumulating party map (the Process payments
forEach body of the source). -/
def applyPay (m : List PartyRec) (p : PaymentRec) : List PartyRec :=
  match m.find? (fun r => r.id == payKey p) with
  | some _ => m.map fun r => if r.id == payKey p then payUpd p r else r
  | none => m ++ [freshPay p]

/-- The common ledger fold: documents first, then payments, starting from an
empty map.  The result list is in map insertion order. -/
def buildPartyMap (docs : List BillingDoc) (pays : List PaymentRec) : List PartyRec :=
  pays.foldl applyPay (docs.foldl applyDoc [])

/-- The sort comparator of the sorted variants: the JS comparator
(a, b) => dateOf(b) - dateOf(a) orders a before b exactly when the date of b
is at most the date of a (descending, stable). -/
def dateDescBool (a b : PartyRec) : Bool :=
  decide (b.lastTransactionDate ≤ a.lastTransactionDate)

namespace SupplierManager

/-- SupplierManager.getAllSuppliers of src/utils/supplierManager.ts: null
check, fold bills then payments, then a stable sort descending by
lastTransactionDate.  A missing collection is a none input. -/
def getAllSuppliers (bills : Option (List BillingDoc))
    (payments : Option (List PaymentRec)) : List PartyRec :=
  if bills.isNone && payments.isNone then []
  else (buildPartyMap (bills.getD []) (payments.getD [])).mergeSort dateDescBool

end SupplierManager

namespace CustomerManager

/-- CustomerManager.getAllCustomers of src/unnamed/part_004: identical to the
supplier variant, over sales invoices and customer payments. -/
def getAllCustomers (invoices : Option (List BillingDoc))
    (payments : Option (List PaymentRec)) : List PartyRec :=
  if invoices.isNone && payments.isNone then []
  else (buildPartyMap (invoices.getD []) (payments.getD [])).mergeSort dateDescBool

end CustomerManager

namespace PartyManager

/-- PartyManager.getAllCustomers of src/unnamed/part_006: the same fold, but
the result is returned directly from Array.from(customerMap.values()) in map
insertion order, without any sort. -/
def getAllCustomers (invoices : Option (List BillingDoc))
    (payments : Option (List PaymentRec)) : List PartyRec :=
  if invoices.isNone && payments.isNone then []
  else buildPartyMap (invoices.getD []) (payments.getD [])

end PartyManager

/-- SupplierManager.getSupplierBalance of src/utils/supplierManager.ts:
filter both collections by lowercased name and verbatim phone, sum the
document totals and the paid amounts, and return the difference. -/
def getSupplierBalance (bills : Option (List BillingDoc))
    (payments : Option (List PaymentRec))
    (supplierName phoneNumber : String) : ℚ :=
  if bills.isNone && payments.isNone then 0
  else
    let supplierBills := (bills.getD []).filter fun b =>
      jsToLower b.partyName == jsToLower supplierName && b.phoneNumber == phoneNumber
    let supplierPayments := (payments.getD []).filter fun p =>
      jsToLower p.partyName == jsToLower supplierName && p.phoneNumber == phoneNumber
    let totalBilled := (supplierBills.map (fun b => b.totalAmount)).sum
    let totalPaid := (supplierPayments.map (fun p => p.amount)).sum
    totalBilled - totalPaid

/-! ### Stock reconciliation engine data model

The authoritative stock engine is the StockManager class of
src/utils/stockManager.ts (the variant with Bardana co-movement, stock
transactions and the processed-invoice set).  src/unnamed/part_003 holds an
older variant without any of these; the claims about Bardana, idempotency and
per-line overwrites concern the src/utils variant, which is embedded here.
-/

/-- An inventory item.  The id field (spelled with a leading underscore in
the source) is a backend-assigned string id; openingStock is the persisted
stock level in bags; isUniversal is the optional flag marking the synthetic
Bardana item (absent means false). -/
structure Item where
  id : String
  productName : String
  category : String
  purchasePrice : ℚ
  salePrice : ℚ
  openingStock : ℚ
  asOfDate : String
  lowStockAlert : ℚ
  createdAt : String
  updatedAt : String
  isUniversal : Bool
deriving DecidableEq

/-- One sale (or purchase) line item as passed to the stock engine; quantity
is in kilograms. -/
structure SaleItem where
  id : String
  itemName : String
  quantity : ℚ
  rate : ℚ
  total : ℚ
deriving DecidableEq

/-- A stock transaction record, with the fields the source builds.  The
transactionId and date fields come from the clock in the source
(generateTransactionId and toISOString); the model takes the clock reading as
the parameter now.  The free-text notes field drops the JS template
interpolation of the invoice id. -/
structure StockTransaction where
  transactionId : String
  itemId : String
  itemName : String
  transactionType : String
  quantity : ℚ
  quantityInBags : ℚ
  previousStock : ℚ
  newStock : ℚ
  referenceType : String
  referenceId : Option String
  referenceNumber : Option String
  rate : ℚ
  totalValue : ℚ
  partyType : Option String
  date : String
  userId : String
  notes : String
  status : String
deriving DecidableEq

/-- The persisted state the stock engine acts on: the items collection, the
append-only stock-transactions collection, and the in-memory
processedInvoices set of the StockManager class (modelled as a list without
duplicates by construction). -/
structure StockState where
  items : List Item
  txs : List StockTransaction
  processedInvoices : List String
deriving DecidableEq

/-- JS truthiness of a string: the empty string is falsy.  The source guards
both the idempotency check and the processed-marking with the bare truth test
if (invoiceId). -/
def jsTruthy (s : String) : Bool := !(s == "")

/-- JS Set.add: appends the element unless it is already present. -/
def setAdd (s : List String) (x : String) : List String :=
  if s.contains x then s else s ++ [x]

/-- Modelled from the spec: the repository only contains the HTTP client for
the items backend (itemsApi.update issues PUT items/id); the server is not in
the repository.  Per spec section 6 the store keeps whole collections and an
update replaces the document carrying the given id. -/
def apiUpdateItem (items : List Item) (itemId : String) (newItem : Item) : List Item :=
  items.map fun j => if j.id == itemId then newItem else j

/-- The idempotency guard of updateStockOnSale:
if (invoiceId and processedInvoices.has(invoiceId)) return. -/
def invoiceGuard (processed : List String) : Option String → Bool
  | some invId => jsTruthy invId && processed.contains invId
  | none => false

/-- The final marking step of updateStockOnSale:
if (invoiceId) processedInvoices.add(invoiceId). -/
def markProcessed (invoiceId : Option String) (st : StockState) : StockState :=
  match invoiceId with
  | some invId =>
      if jsTruthy invId then
        { st with processedInvoices := setAdd st.processedInvoices invId }
      else st
  | none => st

/-- The sale stock-transaction record built for one matched line item
(stockManager.ts lines 188 to 207). -/
def mkSaleTx (item : Item) (soldItem : SaleItem) (invoiceId : Option String)
    (now : String) : StockTransaction :=
  { transactionId := "ST-" ++ now
    itemId := item.id
    itemName := item.productName
    transactionType := "sale"
    quantity := soldItem.quantity
    quantityInBags := soldItem.quantity / 30
    previousStock := item.openingStock
    newStock := max 0 (item.openingStock - soldItem.quantity / 30)
    referenceType := "SaleInvoice"
    referenceId := invoiceId
    referenceNumber := invoiceId
    rate := soldItem.rate
    totalValue := soldItem.total
    partyType := some "customer"
    date := now
    userId := "system"
    notes := "Sale transaction from invoice"
    status := "completed" }

/-- One iteration of the for-loop over soldItems in updateStockOnSale.  The
product lookup runs over the snapshot list loaded once at the start of the
call; the stock write goes to the current store state. -/
def saleLoopStep (snapshot : List Item) (invoiceId : Option String) (now : String)
    (st : StockState) (soldItem : SaleItem) : StockState :=
  match snapshot.find? (fun i => i.productName == soldItem.itemName) with
  | none => st
  | some item =>
      let newStockBags := max 0 (item.openingStock - soldItem.quantity / 30)
      { st with
        txs := st.txs ++ [mkSaleTx item soldItem invoiceId now]
        items := apiUpdateItem st.items item.id
          { item with openingStock := newStockBags, updatedAt := now } }

/-- Total kilograms across all line items of the sale:
soldItems.reduce((total, item) => total + item.quantity, 0). -/
def totalQty (soldItems : List SaleItem) : ℚ :=
  soldItems.foldl (fun total item => total + item.quantity) 0

/-- The Bardana sale stock-transaction record
(stockManager.ts lines 231 to 250). -/
def bardanaSaleTx (bardanaItem : Item) (invoiceId : Option String) (now : String)
    (q : ℚ) : StockTransaction :=
  { transactionId := "ST-" ++ now
    itemId := bardanaItem.id
    itemName := "Bardana"
    transactionType := "sale"
    quantity := q
    quantityInBags := q / 30
    previousStock := bardanaItem.openingStock
    newStock := max 0 (bardanaItem.openingStock - q / 30)
    referenceType := "SaleInvoice"
    referenceId := invoiceId
    referenceNumber := invoiceId
    rate := 0
    totalValue := 0
    partyType := some "customer"
    date := now
    userId := "system"
    notes := "Bardana reduction for sale invoice"
    status := "completed" }

/-- The Handle Bardana reduction block of updateStockOnSale: locate the
universal Bardana item in the snapshot, reduce its stock by the total sold
kilograms converted to bags (floored at zero), and append its transaction. -/
def bardanaSaleStep (snapshot : List Item) (soldItems : List SaleItem)
    (invoiceId : Option String) (now : String) (st : StockState) : StockState :=
  match snapshot.find? (fun i => i.isUniversal && i.productName == "Bardana") with
  | none => st
  | some bardanaItem =>
      let newBardanaStock := max 0 (bardanaItem.openingStock - totalQty soldItems / 30)
      { st with
        txs := st.txs ++ [bardanaSaleTx bardanaItem invoiceId now (totalQty soldItems)]
        items := apiUpdateItem st.items bardanaItem.id
          { bardanaItem with openingStock := newBardanaStock, updatedAt := now } }

namespace StockManager

/-- StockManager.updateStockOnSale of src/utils/stockManager.ts: validate the
input, apply the idempotency guard, load the items snapshot, update each
matched line item, apply the Bardana co-movement, and mark the invoice as
processed.  now is the clock reading used for dates and transaction ids. -/
def updateStockOnSale (soldItems : List SaleItem) (invoiceId : Option String)
    (now : String) (st : StockState) : StockState :=
  if soldItems.isEmpty then st
  else if invoiceGuard st.processedInvoices invoiceId then st
  else if st.items.isEmpty then st
  else
    let snapshot := st.items
    let st1 := soldItems.foldl (saleLoopStep snapshot invoiceId now) st
    let st2 := bardanaSaleStep snapshot soldItems invoiceId now st1
    markProcessed invoiceId st2

end StockManager

/-- One applySale call of a call sequence: its line items, optional invoice
id, and the clock reading during the call. -/
structure SaleCall where
  soldItems : List SaleItem
  invoiceId : Option String
  now : String

/-- Run a sequence of applySale calls from an initial state. -/
def runSales (calls : List SaleCall) (st : StockState) : StockState :=
  calls.foldl (fun s c => StockManager.updateStockOnSale c.soldItems c.invoiceId c.now s) st

/-- All persisted stocks are non-negative. -/
def allStocksNonneg (items : List Item) : Prop :=
  ∀ i ∈ items, 0 ≤ i.openingStock

instance (items : List Item) : Decidable (allStocksNonneg items) := by
  unfold allStocksNonneg; infer_instance

/-- JS Math.round: round half toward positive infinity. -/
def jsRound (q : ℚ) : Int := ⌊q + 1 / 2⌋

/-- StockManager.getItemStock of src/utils/stockManager.ts: 0 for a missing
or empty collection or an unmatched name, otherwise the stock in bags
converted to kilograms and rounded. -/
def getItemStock (items : List Item) (itemName : String) : Int :=
  if items.isEmpty then 0
  else
    match items.find? (fun i => i.productName == itemName) with
    | none => 0
    | some item => jsRound (item.openingStock * 30)

/-- Lookup of an item by its backend id. -/
def lookupItemById (items : List Item) (itemId : String) : Option Item :=
  items.find? (fun j => j.id == itemId)

/-! ### Storage-failure behavior

Each operation wraps its body in try/catch.  The wrappers below model the
outcome of the backing-store read (itemsApi.getAll or Storage.getObject) as
an Except value and reproduce exactly what each catch handler does with a
storage failure: updateStockOnSale, updateStockOnPurchase and
revertStockOnSale log and rethrow, while getItemStock, getSupplierBalance
and initializeBardana log and return a normal default. -/

/-- The Bardana item data created by initializeBardana when no universal
Bardana item exists (the backend-assigned id is abstracted as bardana). -/
def bardanaItemData (now : String) : Item :=
  { id := "bardana", productName := "Bardana", category := "Primary",
    purchasePrice := 0, salePrice := 0, openingStock := 0, asOfDate := now,
    lowStockAlert := 10, createdAt := now, updatedAt := now, isUniversal := true }

/-- StockManager.initializeBardana, success path: create the universal
Bardana item if absent.  createOpeningStockTransaction is a no-op here
because it only writes a transaction for a strictly positive opening stock
and Bardana is created with zero stock. -/
def initializeBardana (items : List Item) (now : String) : List Item :=
  if items.any (fun i => i.isUniversal && i.productName == "Bardana") then items
  else items ++ [bardanaItemData now]

/-- StockManager.initializeBardana at the void level: every failure inside
the body, including a storage failure, is caught, logged and swallowed
(stockManager.ts lines 64 to 66 have no rethrow), so the caller always gets
a normal return. -/
def initializeBardanaE (fetch : Except String (List Item)) : Except String Unit :=
  match fetch with
  | Except.error _ => Except.ok ()
  | Except.ok _ => Except.ok ()

/-- StockManager.getItemStock including its catch handler: a storage failure
is caught and 0 is returned as a normal result (stockManager.ts lines 503
to 506). -/
def getItemStockE (fetch : Except String (List Item)) (itemName : String) :
    Except String Int :=
  match fetch with
  | Except.error _ => Except.ok 0
  | Except.ok items => Except.ok (getItemStock items itemName)

/-- SupplierManager.getSupplierBalance including its catch handler: a storage
failure is caught and 0 is returned as a normal result
(supplierManager.ts lines 44 to 47). -/
def getSupplierBalanceE
    (fetch : Except String (Option (List BillingDoc) × Option (List PaymentRec)))
    (supplierName phoneNumber : String) : Except String ℚ :=
  match fetch with
  | Except.error _ => Except.ok 0
  | Except.ok (bills, payments) =>
      Except.ok (getSupplierBalance bills payments supplierName phoneNumber)

/-- StockManager.updateStockOnSale including its catch handler: the early
returns happen before the items read; once the read is reached, a storage
failure is logged and rethrown to the caller
(stockManager.ts lines 269 to 272). -/
def updateStockOnSaleE (soldItems : List SaleItem) (invoiceId : Option String)
    (now : String) (st : StockState) (fetch : Except String (List Item)) :
    Except String StockState :=
  if soldItems.isEmpty then Except.ok st
  else if invoiceGuard st.processedInvoices invoiceId then Except.ok st
  else
    match fetch with
    | Except.error e => Except.error e
    | Except.ok items =>
        Except.ok (StockManager.updateStockOnSale soldItems invoiceId now
          { st with items := items })

example :
    buildPartyMap
      [⟨"Alice", "555", 1000, 100⟩]
      [⟨"Alice", "555", 400, 200⟩]
    = [⟨"alice-555", "Alice", "555", 1000, 400, 600, 200⟩] := by
  with_unfolding_all rfl


/-! ### Helper lemmas about the item store -/

theorem apiUpdateItem_ids (m : List Item) (itemId : String) (v : Item)
    (hv : v.id = itemId) :
    (apiUpdateItem m itemId v).map (fun j => j.id) = m.map (fun j => j.id) := by
  unfold apiUpdateItem
  rw [List.map_map]
  apply List.map_congr_left
  intro j hj
  by_cases h : j.id = itemId
  · simp [Function.comp, h, hv]
  · simp [Function.comp, h]

theorem lookupItemById_apiUpdateItem_self (m : List Item) (itemId : String) (v : Item)
    (hv : v.id = itemId) (hmem : ∃ j ∈ m, j.id = itemId) :
    lookupItemById (apiUpdateItem m itemId v) itemId = some v := by
  induction m with
  | nil => simp at hmem
  | cons j rest ih =>
      by_cases h : j.id = itemId
      · simp [lookupItemById, apiUpdateItem, h, hv]
      · have hmem2 : ∃ x ∈ rest, x.id = itemId := by
          obtain ⟨w, hw, hwid⟩ := hmem
          rcases List.mem_cons.mp hw with rfl | hw2
          · exact absurd hwid h
          · exact ⟨w, hw2, hwid⟩
        have hrec := ih hmem2
        simp only [lookupItemById, apiUpdateItem, List.map_cons] at hrec ⊢
        rw [List.find?_cons_of_neg _ (by simp [h])]
        exact hrec

theorem lookupItemById_apiUpdateItem_ne (m : List Item) (itemId otherId : String)
    (v : Item) (hv : v.id = itemId) (hne : otherId ≠ itemId) :
    lookupItemById (apiUpdateItem m itemId v) otherId = lookupItemById m otherId := by
  induction m with
  | nil => rfl
  | cons j rest ih =>
      simp only [lookupItemById, apiUpdateItem, List.map_cons] at ih ⊢
      by_cases h : j.id = itemId
      · have hv2 : (v.id == otherId) = false := by
          rw [hv]; exact beq_eq_false_iff_ne.mpr fun hx => hne hx.symm
        have hj2 : (j.id == otherId) = false := by
          rw [h]; exact beq_eq_false_iff_ne.mpr fun hx => hne hx.symm
        rw [List.find?_cons_of_neg _ (by simp [h, hv2]),
            List.find?_cons_of_neg _ (by simp [hj2])]
        exact ih
      · by_cases h2 : j.id = otherId
        · rw [List.find?_cons_of_pos _ (by simp [h2, hne]),
              List.find?_cons_of_pos _ (by simp [h2])]
          simp [h]
        · rw [List.find?_cons_of_neg _ (by simp [h, h2]),
              List.find?_cons_of_neg _ (by simp [h2])]
          exact ih

theorem apiUpdateItem_twice (m : List Item) (itemId : String) (v w : Item)
    (hv : v.id = itemId) :
    apiUpdateItem (apiUpdateItem m itemId v) itemId w = apiUpdateItem m itemId w := by
  unfold apiUpdateItem
  rw [List.map_map]
  apply List.map_congr_left
  intro j hj
  by_cases h : j.id = itemId
  · simp [Function.comp, h, hv]
  · simp [Function.comp, h]

theorem apiUpdateItem_nonneg (m : List Item) (itemId : String) (v : Item)
    (hm : allStocksNonneg m) (hv : 0 ≤ v.openingStock) :
    allStocksNonneg (apiUpdateItem m itemId v) := by
  intro i hi
  simp only [apiUpdateItem, List.mem_map] at hi
  obtain ⟨j, hj, hji⟩ := hi
  by_cases h : (j.id == itemId) = true
  · rw [if_pos h] at hji; subst hji; exact hv
  · rw [if_neg h] at hji; subst hji; exact hm j hj

/-! ### Helper lemmas about updateStockOnSale -/

theorem saleLoopStep_processed (snapshot : List Item) (invoiceId : Option String)
    (now : String) (st : StockState) (s : SaleItem) :
    (saleLoopStep snapshot invoiceId now st s).processedInvoices = st.processedInvoices := by
  unfold saleLoopStep
  cases snapshot.find? (fun i => i.productName == s.itemName) <;> rfl

theorem foldl_saleLoopStep_processed (snapshot : List Item) (invoiceId : Option String)
    (now : String) (soldItems : List SaleItem) (st : StockState) :
    (soldItems.foldl (saleLoopStep snapshot invoiceId now) st).processedInvoices
      = st.processedInvoices := by
  induction soldItems generalizing st with
  | nil => rfl
  | cons s rest ih =>
      simp only [List.foldl_cons]
      rw [ih, saleLoopStep_processed]

theorem bardanaSaleStep_processed (snapshot : List Item) (soldItems : List SaleItem)
    (invoiceId : Option String) (now : String) (st : StockState) :
    (bardanaSaleStep snapshot soldItems invoiceId now st).processedInvoices
      = st.processedInvoices := by
  unfold bardanaSaleStep
  cases snapshot.find? (fun i => i.isUniversal && i.productName == "Bardana") <;> rfl

theorem markProcessed_items (invoiceId : Option String) (st : StockState) :
    (markProcessed invoiceId st).items = st.items := by
  cases invoiceId with
  | none => rfl
  | some invId => unfold markProcessed; by_cases h : jsTruthy invId <;> simp [h]

theorem markProcessed_txs (invoiceId : Option String) (st : StockState) :
    (markProcessed invoiceId st).txs = st.txs := by
  cases invoiceId with
  | none => rfl
  | some invId => unfold markProcessed; by_cases h : jsTruthy invId <;> simp [h]

theorem setAdd_contains (s : List String) (x : String) :
    (setAdd s x).contains x = true := by
  unfold setAdd
  split
  · next h => exact h
  · next h =>
      show List.elem x (s ++ [x]) = true
      simp [List.elem_eq_mem]

/-! ### Claim C6 -/

/-- C6 (amended): applySale with an empty line-item list completes without
error and is a complete no-op: no stock changes, no transaction is appended,
and the processed-invoice set is unchanged, in particular the invoiceId is
not marked as processed, because the empty-items early return of
updateStockOnSale precedes the marking step. -/
theorem updateStockOnSale_empty_items_noop (invoiceId : Option String)
    (now : String) (st : StockState) :
    StockManager.updateStockOnSale [] invoiceId now st = st := by
  simp [StockManager.updateStockOnSale]

/-- C6 counterexample: as stated the claim is false, because after
applySale([], INV-1) the invoiceId INV-1 is not marked as processed: the
empty-items early return happens before the marking step. -/
theorem updateStockOnSale_empty_items_not_marked :
    (StockManager.updateStockOnSale [] (some "INV-1") "t"
        ⟨[], [], []⟩).processedInvoices.contains "INV-1" = false := by
  with_unfolding_all rfl

/-! ### Claim C9 -/

/-- C9 counterexample: not every core operation propagates storage failures.
getItemStock catches a failing store read and returns 0 as a normal result,
so the failure never reaches the caller. -/
theorem getItemStock_swallows_storage_error :
    getItemStockE (Except.error "storage failure") "Widget" = Except.ok 0 := rfl

/-- C9 (amended): updateStockOnSale rethrows a storage failure to its caller
once the items read is reached, but getItemStock, getSupplierBalance and
initializeBardana catch storage failures and return a normal default
(0 or unit) instead of propagating them. -/
theorem storage_error_behavior (e : String) (itemName supplierName phone : String)
    (soldItems : List SaleItem) (invoiceId : Option String) (now : String)
    (st : StockState) (hne : soldItems ≠ [])
    (hguard : invoiceGuard st.processedInvoices invoiceId = false) :
    updateStockOnSaleE soldItems invoiceId now st (Except.error e) = Except.error e
    ∧ getItemStockE (Except.error e) itemName = Except.ok 0
    ∧ getSupplierBalanceE (Except.error e) supplierName phone = Except.ok 0
    ∧ initializeBardanaE (Except.error e) = Except.ok () := by
  refine ⟨?_, rfl, rfl, rfl⟩
  have h1 : soldItems.isEmpty = false := by
    cases soldItems with
    | nil => exact absurd rfl hne
    | cons a l => rfl
  simp [updateStockOnSaleE, h1, hguard]

/-- C9 witness: the amended behavior at a concrete failing store. -/
theorem storage_error_behavior_witness :
    updateStockOnSaleE [⟨"s1", "Widget", 60, 0, 0⟩] (some "INV-9") "t"
        ⟨[], [], []⟩ (Except.error "storage failure") = Except.error "storage failure"
    ∧ getItemStockE (Except.error "storage failure") "Widget" = Except.ok 0
    ∧ getSupplierBalanceE (Except.error "storage failure") "Some Supplier" "99"
        = Except.ok 0
    ∧ initializeBardanaE (Except.error "storage failure") = Except.ok () :=
  storage_error_behavior "storage failure" "Widget" "Some Supplier" "99"
    [⟨"s1", "Widget", 60, 0, 0⟩] (some "INV-9") "t" ⟨[], [], []⟩
    (by simp) (by with_unfolding_all rfl)

/-! ### Claim C1 -/

/-- C1 counterexample: applySale is not idempotent for every invoiceId.  The
empty string is a valid value of the optional invoiceId parameter, but it is
JS-falsy, so the guard if (invoiceId and processed.has(invoiceId)) never
fires and the marking step if (invoiceId) is skipped.  With a Bardana stock
of 4 bags and a 60 kg sale, one call leaves 2 bags but calling twice with
the same empty invoiceId leaves 0 bags. -/
theorem updateStockOnSale_empty_invoiceId_not_idempotent :
    ((StockManager.updateStockOnSale [⟨"s1", "Widget", 60, 0, 0⟩] (some "") "t2"
        (StockManager.updateStockOnSale [⟨"s1", "Widget", 60, 0, 0⟩] (some "") "t1"
          ⟨[⟨"b1", "Bardana", "Primary", 0, 0, 4, "d", 10, "d", "d", true⟩], [],
            []⟩)).items.map (fun i => i.openingStock) = [0])
    ∧ ((StockManager.updateStockOnSale [⟨"s1", "Widget", 60, 0, 0⟩] (some "") "t1"
          ⟨[⟨"b1", "Bardana", "Primary", 0, 0, 4, "d", 10, "d", "d", true⟩], [],
            []⟩).items.map (fun i => i.openingStock) = [2]) :=
  ⟨by with_unfolding_all rfl, by with_unfolding_all rfl⟩

/-- C1 (amended): for every non-empty invoiceId string, calling applySale
twice with the same line items and invoiceId produces exactly the same final
persisted state (stocks of every product and of Bardana, transactions and
processed set) as calling it once: the second call returns without effect
because the first call recorded the invoiceId as processed. -/
theorem updateStockOnSale_idempotent (soldItems : List SaleItem) (invId : String)
    (hinv : invId ≠ "") (now1 now2 : String) (st : StockState) :
    StockManager.updateStockOnSale soldItems (some invId) now2
      (StockManager.updateStockOnSale soldItems (some invId) now1 st)
    = StockManager.updateStockOnSale soldItems (some invId) now1 st := by
  by_cases h1 : soldItems.isEmpty
  · simp [StockManager.updateStockOnSale, h1]
  · by_cases h2 : invoiceGuard st.processedInvoices (some invId) = true
    · simp [StockManager.updateStockOnSale, h1, h2]
    · by_cases h3 : st.items.isEmpty
      · simp [StockManager.updateStockOnSale, h1, h2, h3]
      · have htruthy : jsTruthy invId = true := by
          simp [jsTruthy, hinv]
        have hres : StockManager.updateStockOnSale soldItems (some invId) now1 st
            = markProcessed (some invId)
                (bardanaSaleStep st.items soldItems (some invId) now1
                  (soldItems.foldl (saleLoopStep st.items (some invId) now1) st)) := by
          simp [StockManager.updateStockOnSale, h1, h2, h3]
        set st2 := bardanaSaleStep st.items soldItems (some invId) now1
          (soldItems.foldl (saleLoopStep st.items (some invId) now1) st) with hst2
        have hmark : markProcessed (some invId) st2
            = { st2 with processedInvoices := setAdd st2.processedInvoices invId } := by
          simp [markProcessed, htruthy]
        have hguard2 : invoiceGuard
            (markProcessed (some invId) st2).processedInvoices (some invId) = true := by
          rw [hmark]
          simp only [invoiceGuard, htruthy, Bool.true_and]
          exact setAdd_contains _ _
        rw [hres]
        simp [StockManager.updateStockOnSale, h1, hguard2]

/-- C1 witness: idempotency at a concrete sale with invoiceId INV-1. -/
theorem updateStockOnSale_idempotent_witness :
    StockManager.updateStockOnSale [⟨"s1", "Widget", 60, 5, 300⟩] (some "INV-1") "t2"
      (StockManager.updateStockOnSale [⟨"s1", "Widget", 60, 5, 300⟩] (some "INV-1") "t1"
        ⟨[⟨"w1", "Widget", "Primary", 0, 5, 10, "d", 2, "d", "d", false⟩], [], []⟩)
    = StockManager.updateStockOnSale [⟨"s1", "Widget", 60, 5, 300⟩] (some "INV-1") "t1"
        ⟨[⟨"w1", "Widget", "Primary", 0, 5, 10, "d", 2, "d", "d", false⟩], [], []⟩ :=
  updateStockOnSale_idempotent [⟨"s1", "Widget", 60, 5, 300⟩] "INV-1" (by decide)
    "t1" "t2" ⟨[⟨"w1", "Widget", "Primary", 0, 5, 10, "d", 2, "d", "d", false⟩], [], []⟩

/-! ### Claim C2 -/

theorem saleLoopStep_nonneg (snapshot : List Item) (invoiceId : Option String)
    (now : String) (st : StockState) (s : SaleItem)
    (h : allStocksNonneg st.items) :
    allStocksNonneg (saleLoopStep snapshot invoiceId now st s).items := by
  unfold saleLoopStep
  cases snapshot.find? (fun i => i.productName == s.itemName) with
  | none => exact h
  | some item =>
      exact apiUpdateItem_nonneg _ _ _ h (le_max_left 0 _)

theorem foldl_saleLoopStep_nonneg (snapshot : List Item) (invoiceId : Option String)
    (now : String) (soldItems : List SaleItem) (st : StockState)
    (h : allStocksNonneg st.items) :
    allStocksNonneg ((soldItems.foldl (saleLoopStep snapshot invoiceId now) st).items) := by
  induction soldItems generalizing st with
  | nil => exact h
  | cons s rest ih =>
      simp only [List.foldl_cons]
      exact ih _ (saleLoopStep_nonneg _ _ _ _ _ h)

theorem bardanaSaleStep_nonneg (snapshot : List Item) (soldItems : List SaleItem)
    (invoiceId : Option String) (now : String) (st : StockState)
    (h : allStocksNonneg st.items) :
    allStocksNonneg (bardanaSaleStep snapshot soldItems invoiceId now st).items := by
  unfold bardanaSaleStep
  cases snapshot.find? (fun i => i.isUniversal && i.productName == "Bardana") with
  | none => exact h
  | some bardanaItem =>
      exact apiUpdateItem_nonneg _ _ _ h (le_max_left 0 _)

theorem updateStockOnSale_nonneg (soldItems : List SaleItem)
    (invoiceId : Option String) (now : String) (st : StockState)
    (h : allStocksNonneg st.items) :
    allStocksNonneg (StockManager.updateStockOnSale soldItems invoiceId now st).items := by
  unfold StockManager.updateStockOnSale
  by_cases h1 : soldItems.isEmpty
  · simpa [h1] using h
  · by_cases h2 : invoiceGuard st.processedInvoices invoiceId = true
    · simpa [h1, h2] using h
    · by_cases h3 : st.items.isEmpty
      · simpa [h1, h2, h3] using h
      · simp only [h1, h2, h3, if_neg, if_false, Bool.false_eq_true]
        rw [markProcessed_items]
        exact bardanaSaleStep_nonneg _ _ _ _ _
          (foldl_saleLoopStep_nonneg _ _ _ _ _ h)

theorem runSales_nonneg (calls : List SaleCall) (st : StockState)
    (h : allStocksNonneg st.items) :
    allStocksNonneg (runSales calls st).items := by
  induction calls generalizing st with
  | nil => exact h
  | cons c rest ih =>
      simp only [runSales, List.foldl_cons]
      exact ih _ (updateStockOnSale_nonneg _ _ _ _ h)

/-- C2 (confirmed): from any initial state in which every persisted stock is
non-negative, after any prefix of any sequence of applySale calls every
product stock, including that of Bardana, is still non-negative, no matter
how far the sold quantities exceed the available stock: each stock write is
clamped by max 0. -/
theorem runSales_stocks_nonneg (calls : List SaleCall) (n : Nat) (st : StockState)
    (h : allStocksNonneg st.items) :
    allStocksNonneg (runSales (calls.take n) st).items :=
  runSales_nonneg (calls.take n) st h

/-- C2 witness: a single call overselling a 1-bag product by 300 kg leaves
all stocks non-negative. -/
theorem runSales_stocks_nonneg_witness :
    allStocksNonneg
      ([⟨"w1", "Widget", "Primary", 0, 5, 1, "d", 2, "d", "d", false⟩] : List Item)
    ∧ allStocksNonneg
        (runSales ([⟨[⟨"s1", "Widget", 300, 5, 1500⟩], some "INV-1", "t"⟩].take 1)
          ⟨[⟨"w1", "Widget", "Primary", 0, 5, 1, "d", 2, "d", "d", false⟩], [], []⟩).items :=
  ⟨of_decide_eq_true (by with_unfolding_all rfl),
   runSales_stocks_nonneg [⟨[⟨"s1", "Widget", 300, 5, 1500⟩], some "INV-1", "t"⟩] 1
      ⟨[⟨"w1", "Widget", "Primary", 0, 5, 1, "d", 2, "d", "d", false⟩], [], []⟩
      (of_decide_eq_true (by with_unfolding_all rfl))⟩

/-! ### Claim C3 -/

theorem saleLoopStep_ids (snapshot : List Item) (invoiceId : Option String)
    (now : String) (st : StockState) (s : SaleItem) :
    (saleLoopStep snapshot invoiceId now st s).items.map (fun j => j.id)
      = st.items.map (fun j => j.id) := by
  unfold saleLoopStep
  cases snapshot.find? (fun i => i.productName == s.itemName) with
  | none => rfl
  | some item => exact apiUpdateItem_ids _ _ _ rfl

theorem foldl_saleLoopStep_ids (snapshot : List Item) (invoiceId : Option String)
    (now : String) (soldItems : List SaleItem) (st : StockState) :
    (soldItems.foldl (saleLoopStep snapshot invoiceId now) st).items.map (fun j => j.id)
      = st.items.map (fun j => j.id) := by
  induction soldItems generalizing st with
  | nil => rfl
  | cons s rest ih =>
      simp only [List.foldl_cons]
      rw [ih, saleLoopStep_ids]

/-- The observable Bardana effect of one processed applySale call: the
persisted Bardana stock is the old stock minus the total sold kilograms
converted to bags, floored at 0, and the Bardana sale transaction
referencing the invoice is in the transaction log. -/
def bardanaSaleEffect (stRes : StockState) (b : Item) (invoiceId : Option String)
    (now : String) (q : ℚ) : Prop :=
  lookupItemById stRes.items b.id
      = some { b with openingStock := max 0 (b.openingStock - q / 30), updatedAt := now }
    ∧ bardanaSaleTx b invoiceId now q ∈ stRes.txs

/-- C3 (confirmed): for every applySale call with a non-empty line-item list,
an unprocessed invoiceId and an existing universal Bardana item, the Bardana
stock decreases by exactly the sum of all sold kilograms over 30 bags,
floored at 0, whether or not the individual item names matched products, and
a sale-type Bardana stock transaction referencing the same invoiceId is
appended. -/
theorem updateStockOnSale_bardana_comovement (soldItems : List SaleItem)
    (invId : String) (now : String) (st : StockState) (b : Item)
    (hne : soldItems ≠ [])
    (hb : st.items.find? (fun i => i.isUniversal && i.productName == "Bardana") = some b)
    (hproc : st.processedInvoices.contains invId = false) :
    bardanaSaleEffect (StockManager.updateStockOnSale soldItems (some invId) now st)
      b (some invId) now (totalQty soldItems) := by
  have hmemb : b ∈ st.items := List.mem_of_find?_eq_some hb
  have h1 : soldItems.isEmpty = false := by
    cases soldItems with
    | nil => exact absurd rfl hne
    | cons a l => rfl
  have h2 : invoiceGuard st.processedInvoices (some invId) = false := by
    simp only [invoiceGuard, hproc, Bool.and_false]
  have h3 : st.items.isEmpty = false := by
    cases hst : st.items with
    | nil => rw [hst] at hmemb; simp at hmemb
    | cons a l => rfl
  have hres : StockManager.updateStockOnSale soldItems (some invId) now st
      = markProcessed (some invId)
          (bardanaSaleStep st.items soldItems (some invId) now
            (soldItems.foldl (saleLoopStep st.items (some invId) now) st)) := by
    simp [StockManager.updateStockOnSale, h1, h2, h3]
  set st1 := soldItems.foldl (saleLoopStep st.items (some invId) now) st with hst1
  have hids : st1.items.map (fun j => j.id) = st.items.map (fun j => j.id) :=
    foldl_saleLoopStep_ids _ _ _ _ _
  have hmem1 : ∃ j ∈ st1.items, j.id = b.id := by
    have hmm : b.id ∈ st1.items.map (fun j => j.id) := by
      rw [hids]
      exact List.mem_map_of_mem _ hmemb
    obtain ⟨j, hj, hjid⟩ := List.mem_map.mp hmm
    exact ⟨j, hj, hjid⟩
  have hstep : bardanaSaleStep st.items soldItems (some invId) now st1
      = { st1 with
          txs := st1.txs ++ [bardanaSaleTx b (some invId) now (totalQty soldItems)],
          items := apiUpdateItem st1.items b.id { b with openingStock := max 0 (b.openingStock - totalQty soldItems / 30), updatedAt := now } } := by
    simp only [bardanaSaleStep, hb]
  rw [hres, hstep]
  constructor
  · rw [markProcessed_items]
    exact lookupItemById_apiUpdateItem_self _ _ _ rfl hmem1
  · rw [markProcessed_txs]
    simp

/-- C3 witness: a single 60 kg line item named Widget, which matches no
product, still reduces Bardana from 5 bags by exactly 60 over 30 = 2 bags,
with a sale transaction referencing INV-2. -/
theorem updateStockOnSale_bardana_comovement_witness :
    bardanaSaleEffect
      (StockManager.updateStockOnSale [⟨"s1", "Widget", 60, 0, 0⟩] (some "INV-2") "t"
        ⟨[⟨"b1", "Bardana", "Primary", 0, 0, 5, "d", 10, "d", "d", true⟩], [], []⟩)
      ⟨"b1", "Bardana", "Primary", 0, 0, 5, "d", 10, "d", "d", true⟩
      (some "INV-2") "t" (totalQty [⟨"s1", "Widget", 60, 0, 0⟩]) :=
  updateStockOnSale_bardana_comovement [⟨"s1", "Widget", 60, 0, 0⟩] "INV-2" "t"
    ⟨[⟨"b1", "Bardana", "Primary", 0, 0, 5, "d", 10, "d", "d", true⟩], [], []⟩
    ⟨"b1", "Bardana", "Primary", 0, 0, 5, "d", 10, "d", "d", true⟩
    (by simp) (by with_unfolding_all rfl) rfl

/-! ### Claim C10 -/

theorem foldl_saleLoopStep_same_name (snapshot : List Item)
    (invoiceId : Option String) (now : String) (pname : String) (i : Item)
    (hfind : snapshot.find? (fun j => j.productName == pname) = some i)
    (soldItems : List SaleItem) :
    ∀ (st : StockState) (sl : SaleItem),
      (∀ s ∈ soldItems, s.itemName = pname) →
      soldItems.getLast? = some sl →
      (soldItems.foldl (saleLoopStep snapshot invoiceId now) st).items
        = apiUpdateItem st.items i.id { i with openingStock := max 0 (i.openingStock - sl.quantity / 30), updatedAt := now } := by
  induction soldItems with
  | nil => intro st sl hall hlast; simp at hlast
  | cons s rest ih =>
      intro st sl hall hlast
      have hs : s.itemName = pname := hall s (List.mem_cons_self s rest)
      have hstep : (saleLoopStep snapshot invoiceId now st s).items
          = apiUpdateItem st.items i.id { i with openingStock := max 0 (i.openingStock - s.quantity / 30), updatedAt := now } := by
        simp only [saleLoopStep, hs, hfind]
      cases rest with
      | nil =>
          have hsl : sl = s := by
            simp only [List.getLast?_singleton, Option.some.injEq] at hlast
            exact hlast.symm
          subst hsl
          simpa [List.foldl_cons, List.foldl_nil] using hstep
      | cons s2 rest2 =>
          have hlast2 : (s2 :: rest2).getLast? = some sl := by
            simpa [List.getLast?_cons_cons] using hlast
          have hall2 : ∀ x ∈ s2 :: rest2, x.itemName = pname :=
            fun x hx => hall x (List.mem_cons_of_mem _ hx)
          have hrec := ih (saleLoopStep snapshot invoiceId now st s) sl hall2 hlast2
          rw [List.foldl_cons, hrec, hstep]
          exact apiUpdateItem_twice _ _ _ _ rfl

/-- C10 (confirmed): inside one updateStockOnSale call every line item reads
the product stock from the snapshot loaded at the start of the call, and
each write replaces the stored item, so when all line items name the same
product the persisted final stock is max 0 of the starting stock minus only
the last quantity over 30: earlier duplicate lines are overwritten, not
accumulated. -/
theorem updateStockOnSale_duplicate_lines_overwrite (soldItems : List SaleItem)
    (pname : String) (invoiceId : Option String) (now : String)
    (st : StockState) (i : Item) (sl : SaleItem)
    (hall : ∀ s ∈ soldItems, s.itemName = pname)
    (hlast : soldItems.getLast? = some sl)
    (hfind : st.items.find? (fun j => j.productName == pname) = some i)
    (hguard : invoiceGuard st.processedInvoices invoiceId = false)
    (hbard : (st.items.find? (fun j => j.isUniversal && j.productName == "Bardana")).all
        (fun bj => !(bj.id == i.id)) = true) :
    lookupItemById (StockManager.updateStockOnSale soldItems invoiceId now st).items i.id
      = some { i with openingStock := max 0 (i.openingStock - sl.quantity / 30), updatedAt := now } := by
  have hmemi : i ∈ st.items := List.mem_of_find?_eq_some hfind
  have hne : soldItems ≠ [] := by
    intro h; rw [h] at hlast; simp at hlast
  have h1 : soldItems.isEmpty = false := by
    cases soldItems with
    | nil => exact absurd rfl hne
    | cons a l => rfl
  have h3 : st.items.isEmpty = false := by
    cases hst : st.items with
    | nil => rw [hst] at hmemi; simp at hmemi
    | cons a l => rfl
  have hres : StockManager.updateStockOnSale soldItems invoiceId now st
      = markProcessed invoiceId
          (bardanaSaleStep st.items soldItems invoiceId now
            (soldItems.foldl (saleLoopStep st.items invoiceId now) st)) := by
    simp [StockManager.updateStockOnSale, h1, hguard, h3]
  set st1 := soldItems.foldl (saleLoopStep st.items invoiceId now) st with hst1
  have hloop : st1.items
      = apiUpdateItem st.items i.id { i with openingStock := max 0 (i.openingStock - sl.quantity / 30), updatedAt := now } :=
    foldl_saleLoopStep_same_name st.items invoiceId now pname i hfind soldItems st sl hall hlast
  have hmem1 : ∃ j ∈ st.items, j.id = i.id := ⟨i, hmemi, rfl⟩
  rw [hres, markProcessed_items]
  cases hbfind : st.items.find? (fun j => j.isUniversal && j.productName == "Bardana") with
  | none =>
      have hnostep : bardanaSaleStep st.items soldItems invoiceId now st1 = st1 := by
        simp only [bardanaSaleStep, hbfind]
      rw [hnostep, hloop]
      exact lookupItemById_apiUpdateItem_self _ _ _ rfl hmem1
  | some bj =>
      have hbne : bj.id ≠ i.id := by
        rw [hbfind] at hbard
        simpa using hbard
      have hstep : (bardanaSaleStep st.items soldItems invoiceId now st1).items
          = apiUpdateItem st1.items bj.id { bj with openingStock := max 0 (bj.openingStock - totalQty soldItems / 30), updatedAt := now } := by
        simp only [bardanaSaleStep, hbfind]
      have hlook := lookupItemById_apiUpdateItem_ne st1.items bj.id i.id
        { bj with openingStock := max 0 (bj.openingStock - totalQty soldItems / 30), updatedAt := now }
        rfl (fun hx => hbne hx.symm)
      rw [hstep, hlook, hloop]
      exact lookupItemById_apiUpdateItem_self _ _ _ rfl hmem1

/-- C10 witness: two duplicate Widget lines of 30 kg and 60 kg against a
10-bag stock leave max 0 of 10 minus 60 over 30 = 8 bags: only the last
line counts. -/
theorem updateStockOnSale_duplicate_lines_overwrite_witness :
    lookupItemById
      (StockManager.updateStockOnSale
        [⟨"s1", "Widget", 30, 0, 0⟩, ⟨"s2", "Widget", 60, 0, 0⟩] (some "INV-7") "t"
        ⟨[⟨"w1", "Widget", "Primary", 0, 0, 10, "d", 2, "d", "d", false⟩], [], []⟩).items
      "w1"
    = some { id := "w1"
             productName := "Widget"
             category := "Primary"
             purchasePrice := 0
             salePrice := 0
             openingStock := max 0 (10 - (60 : ℚ) / 30)
             asOfDate := "d"
             lowStockAlert := 2
             createdAt := "d"
             updatedAt := "t"
             isUniversal := false } :=
  updateStockOnSale_duplicate_lines_overwrite
    [⟨"s1", "Widget", 30, 0, 0⟩, ⟨"s2", "Widget", 60, 0, 0⟩] "Widget"
    (some "INV-7") "t"
    ⟨[⟨"w1", "Widget", "Primary", 0, 0, 10, "d", 2, "d", "d", false⟩], [], []⟩
    ⟨"w1", "Widget", "Primary", 0, 0, 10, "d", 2, "d", "d", false⟩
    ⟨"s2", "Widget", 60, 0, 0⟩
    (by decide) (by with_unfolding_all rfl) (by with_unfolding_all rfl)
    (by with_unfolding_all rfl) (by with_unfolding_all rfl)

/-! ### Claim C8 -/

/-- C8 (confirmed): getItemStock returns round(stockBags times 30) when a
product with exactly the requested name exists (names being unique, per the
data model), and 0 when no product matches. -/
theorem getItemStock_spec (items : List Item) (itemName : String) :
    (∀ i, i ∈ items → i.productName = itemName →
        (∀ j ∈ items, j.productName = itemName → j = i) →
        getItemStock items itemName = jsRound (i.openingStock * 30))
    ∧ ((∀ i ∈ items, i.productName ≠ itemName) → getItemStock items itemName = 0) := by
  constructor
  · intro i hmem hname huniq
    have hfind : items.find? (fun j => j.productName == itemName) = some i := by
      induction items with
      | nil => simp at hmem
      | cons j rest ih =>
          by_cases h : j.productName = itemName
          · have : j = i := huniq j (List.mem_cons_self j rest) h
            subst this
            exact List.find?_cons_of_pos _ (by simp [h])
          · have hmem2 : i ∈ rest := by
              rcases List.mem_cons.mp hmem with rfl | hm
              · exact absurd hname h
              · exact hm
            have huniq2 : ∀ j2 ∈ rest, j2.productName = itemName → j2 = i :=
              fun j2 hj2 hn2 => huniq j2 (List.mem_cons_of_mem _ hj2) hn2
            rw [List.find?_cons_of_neg _ (by simp [h])]
            exact ih hmem2 huniq2
    have hempty : items.isEmpty = false := by
      cases hit : items with
      | nil => rw [hit] at hmem; simp at hmem
      | cons a l => rfl
    simp [getItemStock, hempty, hfind]
  · intro hnone
    have hfind : items.find? (fun j => j.productName == itemName) = none :=
      List.find?_eq_none.mpr fun x hx => by simp [hnone x hx]
    by_cases hempty : items.isEmpty
    · simp [getItemStock, hempty]
    · simp [getItemStock, hempty, hfind]

/-- C8 witness: a 2-bag Widget reads as round(2 times 30) = 60 kg, and an
unknown name reads as 0. -/
theorem getItemStock_spec_witness :
    getItemStock [⟨"w1", "Widget", "Primary", 0, 0, 2, "d", 1, "d", "d", false⟩] "Widget"
      = jsRound (2 * 30)
    ∧ getItemStock [⟨"w1", "Widget", "Primary", 0, 0, 2, "d", 1, "d", "d", false⟩] "Gadget"
      = 0 :=
  ⟨(getItemStock_spec [⟨"w1", "Widget", "Primary", 0, 0, 2, "d", 1, "d", "d", false⟩]
        "Widget").1
      ⟨"w1", "Widget", "Primary", 0, 0, 2, "d", 1, "d", "d", false⟩
      (by simp) rfl (by intro j hj hn; simpa using hj),
   (getItemStock_spec [⟨"w1", "Widget", "Primary", 0, 0, 2, "d", 1, "d", "d", false⟩]
        "Gadget").2
      (by intro i hi; simp at hi; subst hi; decide)⟩

/-! ### Claim C4 -/

theorem customerManager_singleton (docs : List BillingDoc) (pays : List PaymentRec)
    (r : PartyRec) (h : buildPartyMap docs pays = [r]) :
    CustomerManager.getAllCustomers (some docs) (some pays) = [r] := by
  unfold CustomerManager.getAllCustomers
  rw [show ((some docs).isNone && (some pays).isNone) = false from rfl]
  simp only [Bool.false_eq_true, if_false, Option.getD_some]
  rw [h]
  exact List.perm_singleton.mp (List.mergeSort_perm _ _)

/-- C4 (confirmed): the ledger fold groups by lowercase name and phone and
sums pure totals.  One invoice for Alice/555 of 1000 and one payment from
Alice/555 of 400 yield exactly one party record with totalBilled 1000,
totalPaid 400 and balance 600; an invoice for bob/777 of 500 and a payment
for Bob/777 of 200 merge into one party with balance 300.  Both hold for the
unsorted PartyManager variant and the sorted CustomerManager variant. -/
theorem computeParties_scenarios :
    (PartyManager.getAllCustomers (some [⟨"Alice", "555", 1000, 100⟩])
        (some [⟨"Alice", "555", 400, 200⟩])
      = [⟨"alice-555", "Alice", "555", 1000, 400, 600, 200⟩])
    ∧ (CustomerManager.getAllCustomers (some [⟨"Alice", "555", 1000, 100⟩])
        (some [⟨"Alice", "555", 400, 200⟩])
      = [⟨"alice-555", "Alice", "555", 1000, 400, 600, 200⟩])
    ∧ (PartyManager.getAllCustomers (some [⟨"bob", "777", 500, 100⟩])
        (some [⟨"Bob", "777", 200, 200⟩])
      = [⟨"bob-777", "bob", "777", 500, 200, 300, 200⟩])
    ∧ (CustomerManager.getAllCustomers (some [⟨"bob", "777", 500, 100⟩])
        (some [⟨"Bob", "777", 200, 200⟩])
      = [⟨"bob-777", "bob", "777", 500, 200, 300, 200⟩]) := by
  refine ⟨by with_unfolding_all rfl,
    customerManager_singleton _ _ _ (by with_unfolding_all rfl),
    by with_unfolding_all rfl,
    customerManager_singleton _ _ _ (by with_unfolding_all rfl)⟩

/-! ### Claim C7 -/

/-- The output ordering property of the spec: descending by
lastTransactionDate. -/
def sortedByDateDesc (l : List PartyRec) : Prop :=
  l.Pairwise (fun a b => b.lastTransactionDate ≤ a.lastTransactionDate)

instance (l : List PartyRec) : Decidable (sortedByDateDesc l) := by
  unfold sortedByDateDesc; infer_instance

theorem mergeSort_dateDesc_sorted (m : List PartyRec) :
    sortedByDateDesc (m.mergeSort dateDescBool) := by
  have h : (m.mergeSort dateDescBool).Pairwise (fun a b => dateDescBool a b = true) := by
    apply List.sorted_mergeSort
    · intro a b c h1 h2
      simp only [dateDescBool, decide_eq_true_eq] at h1 h2 ⊢
      exact le_trans h2 h1
    · intro a b
      simp only [dateDescBool, Bool.or_eq_true, decide_eq_true_eq]
      exact le_total _ _
  exact h.imp fun hab => by simpa [dateDescBool] using hab

/-- C7 counterexample: the PartyManager variant of computeParties does not
sort.  Two invoices for different parties with ascending dates come back in
map insertion order, dates 100 then 200, which is not descending. -/
theorem partyManager_getAllCustomers_not_sorted :
    ¬ sortedByDateDesc (PartyManager.getAllCustomers
        (some [⟨"Alice", "555", 1000, 100⟩, ⟨"Carl", "999", 800, 200⟩])
        (some [])) :=
  of_decide_eq_false (by with_unfolding_all rfl)

/-- C7 (amended): SupplierManager.getAllSuppliers and
CustomerManager.getAllCustomers return their party lists sorted in
descending order of lastTransactionDate; the PartyManager variant returns
map insertion order instead and is not covered by the claim. -/
theorem getAll_sorted_desc (bills invoices : Option (List BillingDoc))
    (pays1 pays2 : Option (List PaymentRec)) :
    sortedByDateDesc (SupplierManager.getAllSuppliers bills pays1)
    ∧ sortedByDateDesc (CustomerManager.getAllCustomers invoices pays2) := by
  constructor
  · unfold SupplierManager.getAllSuppliers
    by_cases h : (bills.isNone && pays1.isNone) = true
    · simp only [h, if_true]
      exact List.Pairwise.nil
    · simp only [h, if_false]
      exact mergeSort_dateDesc_sorted _
  · unfold CustomerManager.getAllCustomers
    by_cases h : (invoices.isNone && pays2.isNone) = true
    · simp only [h, if_true]
      exact List.Pairwise.nil
    · simp only [h, if_false]
      exact mergeSort_dateDesc_sorted _

/-! ### Claim C5: per-key totals of the ledger fold -/

/-- Lookup of a party record by map key. -/
def lookupParty (m : List PartyRec) (k : String) : Option PartyRec :=
  m.find? (fun r => r.id == k)

/-- The totalBilled of an optional record, 0 when absent. -/
def tBilled : Option PartyRec → ℚ
  | none => 0
  | some r => r.totalBilled

/-- The totalPaid of an optional record, 0 when absent. -/
def tPaid : Option PartyRec → ℚ
  | none => 0
  | some r => r.totalPaid

/-- Sum of the document totals carrying a given party key. -/
def docsTotal (docs : List BillingDoc) (k : String) : ℚ :=
  ((docs.filter (fun d => docKey d == k)).map (fun d => d.totalAmount)).sum

/-- Sum of the payment amounts carrying a given party key. -/
def paysTotal (pays : List PaymentRec) (k : String) : ℚ :=
  ((pays.filter (fun p => payKey p == k)).map (fun p => p.amount)).sum

/-- The observable totals of one party key: totalBilled, totalPaid and
balance, when the key is present. -/
def lookupTotals (m : List PartyRec) (k : String) : Option (ℚ × ℚ × ℚ) :=
  (lookupParty m k).map (fun r => (r.totalBilled, r.totalPaid, r.balance))

theorem lookupParty_mapUpdate_self (m : List PartyRec) (k : String)
    (g : PartyRec → PartyRec) (hg : ∀ r, (g r).id = r.id) :
    lookupParty (m.map (fun r => if r.id == k then g r else r)) k
      = (lookupParty m k).map g := by
  induction m with
  | nil => rfl
  | cons r rest ih =>
      simp only [lookupParty, List.map_cons] at ih ⊢
      by_cases h : r.id = k
      · have hc : (r.id == k) = true := beq_iff_eq.mpr h
        have hgc : ((g r).id == k) = true := by rw [beq_iff_eq, hg]; exact h
        rw [if_pos hc]
        simp only [List.find?]
        rw [hgc, hc]
        rfl
      · have hc : (r.id == k) = false := beq_eq_false_iff_ne.mpr h
        rw [if_neg (by simp [hc])]
        simp only [List.find?]
        rw [hc]
        exact ih

theorem lookupParty_mapUpdate_ne (m : List PartyRec) (k q : String)
    (g : PartyRec → PartyRec) (hg : ∀ r, (g r).id = r.id) (hne : q ≠ k) :
    lookupParty (m.map (fun r => if r.id == q then g r else r)) k
      = lookupParty m k := by
  induction m with
  | nil => rfl
  | cons r rest ih =>
      simp only [lookupParty, List.map_cons] at ih ⊢
      by_cases h : r.id = q
      · have hc : (r.id == q) = true := beq_iff_eq.mpr h
        have hgk : ((g r).id == k) = false := by
          rw [beq_eq_false_iff_ne, hg, h]; exact hne
        have hrk : (r.id == k) = false := by
          rw [beq_eq_false_iff_ne, h]; exact hne
        rw [if_pos hc]
        simp only [List.find?]
        rw [hgk, hrk]
        exact ih
      · have hc : (r.id == q) = false := beq_eq_false_iff_ne.mpr h
        rw [if_neg (by simp [hc])]
        simp only [List.find?]
        by_cases h2 : r.id = k
        · rw [beq_iff_eq.mpr h2]
        · rw [beq_eq_false_iff_ne.mpr h2]
          exact ih

theorem lookupParty_append_single (m : List PartyRec) (x : PartyRec) (k : String) :
    lookupParty (m ++ [x]) k
      = (lookupParty m k).or (if x.id == k then some x else none) := by
  unfold lookupParty
  rw [List.find?_append]
  by_cases h : x.id = k
  · have hc : (x.id == k) = true := beq_iff_eq.mpr h
    simp only [List.find?]
    rw [hc]
    rfl
  · have hc : (x.id == k) = false := beq_eq_false_iff_ne.mpr h
    simp only [List.find?]
    rw [hc]
    rfl

theorem tBilled_applyDoc (m : List PartyRec) (d : BillingDoc) (k : String) :
    tBilled (lookupParty (applyDoc m d) k)
      = tBilled (lookupParty m k) + (if docKey d == k then d.totalAmount else 0) := by
  unfold applyDoc
  split
  · next r0 hf =>
      by_cases hk : docKey d = k
      · subst hk
        rw [lookupParty_mapUpdate_self m (docKey d) (docUpd d) (fun r => rfl),
            show lookupParty m (docKey d) = some r0 from hf]
        simp [tBilled, docUpd]
      · rw [lookupParty_mapUpdate_ne m k (docKey d) (docUpd d) (fun r => rfl)
            (fun hx => hk hx), beq_eq_false_iff_ne.mpr hk]
        simp
  · next hf =>
      rw [lookupParty_append_single]
      by_cases hk : docKey d = k
      · subst hk
        rw [show lookupParty m (docKey d) = none from hf]
        simp [tBilled, freshDoc]
      · rw [beq_eq_false_iff_ne.mpr hk]
        cases lookupParty m k <;> simp [tBilled, freshDoc, hk]

theorem tPaid_applyDoc (m : List PartyRec) (d : BillingDoc) (k : String) :
    tPaid (lookupParty (applyDoc m d) k) = tPaid (lookupParty m k) := by
  unfold applyDoc
  split
  · next r0 hf =>
      by_cases hk : docKey d = k
      · subst hk
        rw [lookupParty_mapUpdate_self m (docKey d) (docUpd d) (fun r => rfl)]
        cases lookupParty m (docKey d) <;> simp [tPaid, docUpd]
      · rw [lookupParty_mapUpdate_ne m k (docKey d) (docUpd d) (fun r => rfl)
            (fun hx => hk hx)]
  · next hf =>
      rw [lookupParty_append_single]
      by_cases hk : docKey d = k
      · subst hk
        rw [show lookupParty m (docKey d) = none from hf]
        simp [tPaid, freshDoc]
      · cases lookupParty m k <;> simp [tPaid, freshDoc, hk]

theorem isSome_applyDoc (m : List PartyRec) (d : BillingDoc) (k : String) :
    (lookupParty (applyDoc m d) k).isSome
      = ((lookupParty m k).isSome || (docKey d == k)) := by
  unfold applyDoc
  split
  · next r0 hf =>
      by_cases hk : docKey d = k
      · subst hk
        rw [lookupParty_mapUpdate_self m (docKey d) (docUpd d) (fun r => rfl),
            show lookupParty m (docKey d) = some r0 from hf]
        simp
      · rw [lookupParty_mapUpdate_ne m k (docKey d) (docUpd d) (fun r => rfl)
            (fun hx => hk hx), beq_eq_false_iff_ne.mpr hk]
        simp
  · next hf =>
      rw [lookupParty_append_single]
      by_cases hk : docKey d = k
      · subst hk
        cases lookupParty m (docKey d) <;> simp [freshDoc]
      · rw [beq_eq_false_iff_ne.mpr hk]
        cases lookupParty m k <;> simp [freshDoc, hk]

theorem tPaid_applyPay (m : List PartyRec) (p : PaymentRec) (k : String) :
    tPaid (lookupParty (applyPay m p) k)
      = tPaid (lookupParty m k) + (if payKey p == k then p.amount else 0) := by
  unfold applyPay
  split
  · next r0 hf =>
      by_cases hk : payKey p = k
      · subst hk
        rw [lookupParty_mapUpdate_self m (payKey p) (payUpd p) (fun r => rfl),
            show lookupParty m (payKey p) = some r0 from hf]
        simp [tPaid, payUpd]
      · rw [lookupParty_mapUpdate_ne m k (payKey p) (payUpd p) (fun r => rfl)
            (fun hx => hk hx), beq_eq_false_iff_ne.mpr hk]
        simp
  · next hf =>
      rw [lookupParty_append_single]
      by_cases hk : payKey p = k
      · subst hk
        rw [show lookupParty m (payKey p) = none from hf]
        simp [tPaid, freshPay]
      · rw [beq_eq_false_iff_ne.mpr hk]
        cases lookupParty m k <;> simp [tPaid, freshPay, hk]

theorem tBilled_applyPay (m : List PartyRec) (p : PaymentRec) (k : String) :
    tBilled (lookupParty (applyPay m p) k) = tBilled (lookupParty m k) := by
  unfold applyPay
  split
  · next r0 hf =>
      by_cases hk : payKey p = k
      · subst hk
        rw [lookupParty_mapUpdate_self m (payKey p) (payUpd p) (fun r => rfl)]
        cases lookupParty m (payKey p) <;> simp [tBilled, payUpd]
      · rw [lookupParty_mapUpdate_ne m k (payKey p) (payUpd p) (fun r => rfl)
            (fun hx => hk hx)]
  · next hf =>
      rw [lookupParty_append_single]
      by_cases hk : payKey p = k
      · subst hk
        rw [show lookupParty m (payKey p) = none from hf]
        simp [tBilled, freshPay]
      · cases lookupParty m k <;> simp [tBilled, freshPay, hk]

theorem isSome_applyPay (m : List PartyRec) (p : PaymentRec) (k : String) :
    (lookupParty (applyPay m p) k).isSome
      = ((lookupParty m k).isSome || (payKey p == k)) := by
  unfold applyPay
  split
  · next r0 hf =>
      by_cases hk : payKey p = k
      · subst hk
        rw [lookupParty_mapUpdate_self m (payKey p) (payUpd p) (fun r => rfl),
            show lookupParty m (payKey p) = some r0 from hf]
        simp
      · rw [lookupParty_mapUpdate_ne m k (payKey p) (payUpd p) (fun r => rfl)
            (fun hx => hk hx), beq_eq_false_iff_ne.mpr hk]
        simp
  · next hf =>
      rw [lookupParty_append_single]
      by_cases hk : payKey p = k
      · subst hk
        cases lookupParty m (payKey p) <;> simp [freshPay]
      · rw [beq_eq_false_iff_ne.mpr hk]
        cases lookupParty m k <;> simp [freshPay, hk]

theorem docsTotal_cons (d : BillingDoc) (ds : List BillingDoc) (k : String) :
    docsTotal (d :: ds) k
      = (if docKey d == k then d.totalAmount else 0) + docsTotal ds k := by
  unfold docsTotal
  rw [List.filter_cons]
  by_cases h : (docKey d == k) = true
  · rw [if_pos h, if_pos h]
    simp
  · rw [if_neg h, if_neg h]
    simp

theorem paysTotal_cons (q : PaymentRec) (qs : List PaymentRec) (k : String) :
    paysTotal (q :: qs) k
      = (if payKey q == k then q.amount else 0) + paysTotal qs k := by
  unfold paysTotal
  rw [List.filter_cons]
  by_cases h : (payKey q == k) = true
  · rw [if_pos h, if_pos h]
    simp
  · rw [if_neg h, if_neg h]
    simp

theorem tBilled_foldl_applyDoc (docs : List BillingDoc) (m : List PartyRec) (k : String) :
    tBilled (lookupParty (docs.foldl applyDoc m) k)
      = tBilled (lookupParty m k) + docsTotal docs k := by
  induction docs generalizing m with
  | nil => simp [docsTotal]
  | cons d ds ih =>
      rw [List.foldl_cons, ih, tBilled_applyDoc, docsTotal_cons]
      ring

theorem tPaid_foldl_applyDoc (docs : List BillingDoc) (m : List PartyRec) (k : String) :
    tPaid (lookupParty (docs.foldl applyDoc m) k) = tPaid (lookupParty m k) := by
  induction docs generalizing m with
  | nil => rfl
  | cons d ds ih => rw [List.foldl_cons, ih, tPaid_applyDoc]

theorem isSome_foldl_applyDoc (docs : List BillingDoc) (m : List PartyRec) (k : String) :
    (lookupParty (docs.foldl applyDoc m) k).isSome
      = ((lookupParty m k).isSome || docs.any (fun d => docKey d == k)) := by
  induction docs generalizing m with
  | nil => simp
  | cons d ds ih =>
      rw [List.foldl_cons, ih, isSome_applyDoc, List.any_cons]
      rw [Bool.or_assoc]

theorem tPaid_foldl_applyPay (pays : List PaymentRec) (m : List PartyRec) (k : String) :
    tPaid (lookupParty (pays.foldl applyPay m) k)
      = tPaid (lookupParty m k) + paysTotal pays k := by
  induction pays generalizing m with
  | nil => simp [paysTotal]
  | cons q qs ih =>
      rw [List.foldl_cons, ih, tPaid_applyPay, paysTotal_cons]
      ring

theorem tBilled_foldl_applyPay (pays : List PaymentRec) (m : List PartyRec) (k : String) :
    tBilled (lookupParty (pays.foldl applyPay m) k) = tBilled (lookupParty m k) := by
  induction pays generalizing m with
  | nil => rfl
  | cons q qs ih => rw [List.foldl_cons, ih, tBilled_applyPay]

theorem isSome_foldl_applyPay (pays : List PaymentRec) (m : List PartyRec) (k : String) :
    (lookupParty (pays.foldl applyPay m) k).isSome
      = ((lookupParty m k).isSome || pays.any (fun q => payKey q == k)) := by
  induction pays generalizing m with
  | nil => simp
  | cons q qs ih =>
      rw [List.foldl_cons, ih, isSome_applyPay, List.any_cons]
      rw [Bool.or_assoc]

/-- The balance field always equals totalBilled minus totalPaid: every write
of the fold recomputes it from the freshly updated totals. -/
def balanceOk (m : List PartyRec) : Prop :=
  ∀ r ∈ m, r.balance = r.totalBilled - r.totalPaid

theorem balanceOk_applyDoc (m : List PartyRec) (d : BillingDoc)
    (h : balanceOk m) : balanceOk (applyDoc m d) := by
  unfold applyDoc
  split
  · next r0 hf =>
      intro r hr
      simp only [List.mem_map] at hr
      obtain ⟨r1, hr1, hev⟩ := hr
      by_cases hc : (r1.id == docKey d) = true
      · rw [if_pos hc] at hev
        subst hev
        simp [docUpd]
      · rw [if_neg hc] at hev
        subst hev
        exact h r1 hr1
  · next hf =>
      intro r hr
      rcases List.mem_append.mp hr with hm | hx
      · exact h r hm
      · simp only [List.mem_singleton] at hx
        subst hx
        simp [freshDoc]

theorem balanceOk_applyPay (m : List PartyRec) (p : PaymentRec)
    (h : balanceOk m) : balanceOk (applyPay m p) := by
  unfold applyPay
  split
  · next r0 hf =>
      intro r hr
      simp only [List.mem_map] at hr
      obtain ⟨r1, hr1, hev⟩ := hr
      by_cases hc : (r1.id == payKey p) = true
      · rw [if_pos hc] at hev
        subst hev
        simp [payUpd]
      · rw [if_neg hc] at hev
        subst hev
        exact h r1 hr1
  · next hf =>
      intro r hr
      rcases List.mem_append.mp hr with hm | hx
      · exact h r hm
      · simp only [List.mem_singleton] at hx
        subst hx
        simp [freshPay]

theorem balanceOk_buildPartyMap (docs : List BillingDoc) (pays : List PaymentRec) :
    balanceOk (buildPartyMap docs pays) := by
  unfold buildPartyMap
  have hdoc : ∀ (ds : List BillingDoc) (m : List PartyRec), balanceOk m →
      balanceOk (ds.foldl applyDoc m) := by
    intro ds
    induction ds with
    | nil => intro m hm; exact hm
    | cons d ds2 ih =>
        intro m hm
        rw [List.foldl_cons]
        exact ih _ (balanceOk_applyDoc _ _ hm)
  have hpay : ∀ (qs : List PaymentRec) (m : List PartyRec), balanceOk m →
      balanceOk (qs.foldl applyPay m) := by
    intro qs
    induction qs with
    | nil => intro m hm; exact hm
    | cons q qs2 ih =>
        intro m hm
        rw [List.foldl_cons]
        exact ih _ (balanceOk_applyPay _ _ hm)
  exact hpay _ _ (hdoc _ _ (fun r hr => absurd hr (List.not_mem_nil r)))

/-- The per-key characterization of the ledger fold: a key is present
exactly when some document or payment carries it, and then its totals are
the filtered sums and the balance is their difference. -/
theorem buildPartyMap_lookupTotals (docs : List BillingDoc) (pays : List PaymentRec)
    (k : String) :
    lookupTotals (buildPartyMap docs pays) k
      = if (docs.any (fun d => docKey d == k) || pays.any (fun q => payKey q == k)) then
          some (docsTotal docs k, paysTotal pays k, docsTotal docs k - paysTotal pays k)
        else none := by
  have hsome : (lookupParty (buildPartyMap docs pays) k).isSome
      = (docs.any (fun d => docKey d == k) || pays.any (fun q => payKey q == k)) := by
    unfold buildPartyMap
    rw [isSome_foldl_applyPay, isSome_foldl_applyDoc]
    simp [lookupParty]
  have hbilled : tBilled (lookupParty (buildPartyMap docs pays) k) = docsTotal docs k := by
    unfold buildPartyMap
    rw [tBilled_foldl_applyPay, tBilled_foldl_applyDoc]
    simp [lookupParty, tBilled]
  have hpaid : tPaid (lookupParty (buildPartyMap docs pays) k) = paysTotal pays k := by
    unfold buildPartyMap
    rw [tPaid_foldl_applyPay, tPaid_foldl_applyDoc]
    simp [lookupParty, tPaid]
  by_cases hs : (docs.any (fun d => docKey d == k) || pays.any (fun q => payKey q == k)) = true
  · rw [if_pos hs]
    rw [hs] at hsome
    obtain ⟨r, hr⟩ := Option.isSome_iff_exists.mp hsome
    have hrmem : r ∈ buildPartyMap docs pays := List.mem_of_find?_eq_some hr
    rw [hr] at hbilled hpaid
    have h1 : r.totalBilled = docsTotal docs k := hbilled
    have h2 : r.totalPaid = paysTotal pays k := hpaid
    have h3 : r.balance = r.totalBilled - r.totalPaid :=
      balanceOk_buildPartyMap docs pays r hrmem
    unfold lookupTotals
    rw [hr]
    show some (r.totalBilled, r.totalPaid, r.balance) = _
    rw [h1, h2] at h3
    rw [h1, h2, h3]
  · rw [if_neg hs]
    have hnone : lookupParty (buildPartyMap docs pays) k = none := by
      cases ho : lookupParty (buildPartyMap docs pays) k with
      | none => rfl
      | some r =>
          rw [ho] at hsome
          exact absurd hsome.symm hs
    unfold lookupTotals
    rw [hnone]
    rfl

/-- The map keys are pairwise distinct; the fold maintains this since it
inserts a fresh record only when its key is absent. -/
def nodupKeys (m : List PartyRec) : Prop := (m.map (fun r => r.id)).Nodup

theorem nodupKeys_applyDoc (m : List PartyRec) (d : BillingDoc)
    (h : nodupKeys m) : nodupKeys (applyDoc m d) := by
  unfold applyDoc
  split
  · next r0 hf =>
      unfold nodupKeys
      have hids : (m.map (fun r => if r.id == docKey d then docUpd d r else r)).map
          (fun r => r.id) = m.map (fun r => r.id) := by
        rw [List.map_map]
        apply List.map_congr_left
        intro r hr
        by_cases hc : (r.id == docKey d) = true
        · simp [Function.comp, hc, docUpd]
        · simp [Function.comp, hc]
      rw [hids]
      exact h
  · next hf =>
      unfold nodupKeys
      rw [List.map_append]
      rw [List.nodup_append]
      refine ⟨h, by simp, ?_⟩
      intro x hx
      simp only [List.map_cons, List.map_nil, List.mem_singleton, freshDoc] at *
      obtain ⟨r, hr, hrx⟩ := List.mem_map.mp hx
      intro hxk
      subst hxk
      have := List.find?_eq_none.mp hf r hr
      simp only [beq_iff_eq] at this
      exact this hrx

theorem nodupKeys_applyPay (m : List PartyRec) (p : PaymentRec)
    (h : nodupKeys m) : nodupKeys (applyPay m p) := by
  unfold applyPay
  split
  · next r0 hf =>
      unfold nodupKeys
      have hids : (m.map (fun r => if r.id == payKey p then payUpd p r else r)).map
          (fun r => r.id) = m.map (fun r => r.id) := by
        rw [List.map_map]
        apply List.map_congr_left
        intro r hr
        by_cases hc : (r.id == payKey p) = true
        · simp [Function.comp, hc, payUpd]
        · simp [Function.comp, hc]
      rw [hids]
      exact h
  · next hf =>
      unfold nodupKeys
      rw [List.map_append]
      rw [List.nodup_append]
      refine ⟨h, by simp, ?_⟩
      intro x hx
      simp only [List.map_cons, List.map_nil, List.mem_singleton, freshPay] at *
      obtain ⟨r, hr, hrx⟩ := List.mem_map.mp hx
      intro hxk
      subst hxk
      have := List.find?_eq_none.mp hf r hr
      simp only [beq_iff_eq] at this
      exact this hrx

theorem nodupKeys_buildPartyMap (docs : List BillingDoc) (pays : List PaymentRec) :
    nodupKeys (buildPartyMap docs pays) := by
  unfold buildPartyMap
  have hdoc : ∀ (ds : List BillingDoc) (m : List PartyRec), nodupKeys m →
      nodupKeys (ds.foldl applyDoc m) := by
    intro ds
    induction ds with
    | nil => intro m hm; exact hm
    | cons d ds2 ih =>
        intro m hm
        rw [List.foldl_cons]
        exact ih _ (nodupKeys_applyDoc _ _ hm)
  have hpay : ∀ (qs : List PaymentRec) (m : List PartyRec), nodupKeys m →
      nodupKeys (qs.foldl applyPay m) := by
    intro qs
    induction qs with
    | nil => intro m hm; exact hm
    | cons q qs2 ih =>
        intro m hm
        rw [List.foldl_cons]
        exact ih _ (nodupKeys_applyPay _ _ hm)
  exact hpay _ _ (hdoc _ _ List.nodup_nil)

theorem eq_of_mem_nodupKeys (m : List PartyRec) (h : nodupKeys m) (a b : PartyRec)
    (ha : a ∈ m) (hb : b ∈ m) (hid : a.id = b.id) : a = b := by
  induction m with
  | nil => simp at ha
  | cons x rest ih =>
      have hcons := h
      unfold nodupKeys at hcons
      rw [List.map_cons, List.nodup_cons] at hcons
      obtain ⟨hx, hrest⟩ := hcons
      rcases List.mem_cons.mp ha with rfl | ha2
      · rcases List.mem_cons.mp hb with rfl | hb2
        · rfl
        · exact absurd (hid ▸ List.mem_map_of_mem (fun r => r.id) hb2) hx
      · rcases List.mem_cons.mp hb with rfl | hb2
        · exact absurd (hid ▸ List.mem_map_of_mem (fun r => r.id) ha2) hx
        · exact ih hrest ha2 hb2

theorem lookupParty_perm (m m2 : List PartyRec) (hperm : m.Perm m2)
    (hnd : nodupKeys m) (k : String) : lookupParty m k = lookupParty m2 k := by
  cases h1 : lookupParty m k with
  | none =>
      have h1f : m.find? (fun r => r.id == k) = none := h1
      cases h2 : lookupParty m2 k with
      | none => rfl
      | some r =>
          have h2f : m2.find? (fun r => r.id == k) = some r := h2
          have hrm : r ∈ m := hperm.mem_iff.mpr (List.mem_of_find?_eq_some h2f)
          have hrk := List.find?_some h2f
          exact absurd hrk (List.find?_eq_none.mp h1f r hrm)
  | some r =>
      have h1f : m.find? (fun r => r.id == k) = some r := h1
      have hrm : r ∈ m := List.mem_of_find?_eq_some h1f
      have hrk := List.find?_some h1f
      cases h2 : lookupParty m2 k with
      | none =>
          have h2f : m2.find? (fun r => r.id == k) = none := h2
          exact absurd hrk (List.find?_eq_none.mp h2f r (hperm.mem_iff.mp hrm))
      | some r2 =>
          have h2f : m2.find? (fun r => r.id == k) = some r2 := h2
          have hr2m : r2 ∈ m := hperm.mem_iff.mpr (List.mem_of_find?_eq_some h2f)
          have hr2k := List.find?_some h2f
          have heq : r = r2 := by
            apply eq_of_mem_nodupKeys m hnd r r2 hrm hr2m
            have e1 : r.id = k := beq_iff_eq.mp hrk
            have e2 : r2.id = k := beq_iff_eq.mp hr2k
            rw [e1, e2]
          rw [heq]

theorem lookupTotals_getAllSuppliers (docs : List BillingDoc)
    (pays : List PaymentRec) (k : String) :
    lookupTotals (SupplierManager.getAllSuppliers (some docs) (some pays)) k
      = lookupTotals (buildPartyMap docs pays) k := by
  unfold SupplierManager.getAllSuppliers
  rw [show ((some docs).isNone && (some pays).isNone) = false from rfl]
  simp only [Bool.false_eq_true, if_false, Option.getD_some]
  unfold lookupTotals
  have hp : ((buildPartyMap docs pays).mergeSort dateDescBool).map (fun r => r.id)
      |>.Perm ((buildPartyMap docs pays).map (fun r => r.id)) :=
    (List.mergeSort_perm _ _).map _
  have hnodup : nodupKeys ((buildPartyMap docs pays).mergeSort dateDescBool) := by
    unfold nodupKeys
    exact hp.nodup_iff.mpr (nodupKeys_buildPartyMap docs pays)
  rw [lookupParty_perm ((buildPartyMap docs pays).mergeSort dateDescBool)
    (buildPartyMap docs pays) (List.mergeSort_perm _ _) hnodup k]

theorem lookupTotals_partyManager (docs : List BillingDoc)
    (pays : List PaymentRec) (k : String) :
    lookupTotals (PartyManager.getAllCustomers (some docs) (some pays)) k
      = lookupTotals (buildPartyMap docs pays) k := by
  unfold PartyManager.getAllCustomers
  rw [show ((some docs).isNone && (some pays).isNone) = false from rfl]
  simp only [Bool.false_eq_true, if_false, Option.getD_some]

theorem any_perm {α : Type} (l l2 : List α) (h : l.Perm l2) (f : α → Bool) :
    l.any f = l2.any f := by
  cases h1 : l.any f with
  | true =>
      obtain ⟨x, hx, hfx⟩ := List.any_eq_true.mp h1
      exact (List.any_eq_true.mpr ⟨x, h.mem_iff.mp hx, hfx⟩).symm
  | false =>
      cases h2 : l2.any f with
      | false => rfl
      | true =>
          obtain ⟨x, hx, hfx⟩ := List.any_eq_true.mp h2
          have := List.any_eq_true.mpr ⟨x, h.mem_iff.mpr hx, hfx⟩
          rw [h1] at this
          exact this.symm ▸ rfl

theorem docsTotal_perm (docs docs2 : List BillingDoc) (h : docs.Perm docs2)
    (k : String) : docsTotal docs k = docsTotal docs2 k :=
  List.Perm.sum_eq ((h.filter _).map _)

theorem paysTotal_perm (pays pays2 : List PaymentRec) (h : pays.Perm pays2)
    (k : String) : paysTotal pays k = paysTotal pays2 k :=
  List.Perm.sum_eq ((h.filter _).map _)

/-- C5 (confirmed): computeParties is permutation-invariant.  For any
permutation of the document list and any permutation of the payment list,
every party key gets exactly the same totalBilled, totalPaid and balance
(and the same presence in the output), in the unsorted PartyManager variant
and in the sorted SupplierManager variant alike: the totals are pure sums
over the entries carrying the key. -/
theorem computeParties_perm_invariant (docs docs2 : List BillingDoc)
    (pays pays2 : List PaymentRec) (hd : docs.Perm docs2) (hp : pays.Perm pays2)
    (k : String) :
    lookupTotals (PartyManager.getAllCustomers (some docs) (some pays)) k
      = lookupTotals (PartyManager.getAllCustomers (some docs2) (some pays2)) k
    ∧ lookupTotals (SupplierManager.getAllSuppliers (some docs) (some pays)) k
      = lookupTotals (SupplierManager.getAllSuppliers (some docs2) (some pays2)) k := by
  have hcore : lookupTotals (buildPartyMap docs pays) k
      = lookupTotals (buildPartyMap docs2 pays2) k := by
    rw [buildPartyMap_lookupTotals, buildPartyMap_lookupTotals,
        any_perm docs docs2 hd, any_perm pays pays2 hp,
        docsTotal_perm docs docs2 hd, paysTotal_perm pays pays2 hp]
  exact ⟨by rw [lookupTotals_partyManager, lookupTotals_partyManager]; exact hcore,
         by rw [lookupTotals_getAllSuppliers, lookupTotals_getAllSuppliers]; exact hcore⟩

/-- C5 witness: swapping two invoices and two payments leaves the totals of
the key alice-555 unchanged in both variants. -/
theorem computeParties_perm_invariant_witness :
    lookupTotals (PartyManager.getAllCustomers
        (some [⟨"Alice", "555", 1000, 100⟩, ⟨"Carl", "999", 800, 300⟩])
        (some [⟨"Alice", "555", 400, 200⟩, ⟨"Alice", "555", 100, 400⟩])) "alice-555"
      = lookupTotals (PartyManager.getAllCustomers
        (some [⟨"Carl", "999", 800, 300⟩, ⟨"Alice", "555", 1000, 100⟩])
        (some [⟨"Alice", "555", 100, 400⟩, ⟨"Alice", "555", 400, 200⟩])) "alice-555"
    ∧ lookupTotals (SupplierManager.getAllSuppliers
        (some [⟨"Alice", "555", 1000, 100⟩, ⟨"Carl", "999", 800, 300⟩])
        (some [⟨"Alice", "555", 400, 200⟩, ⟨"Alice", "555", 100, 400⟩])) "alice-555"
      = lookupTotals (SupplierManager.getAllSuppliers
        (some [⟨"Carl", "999", 800, 300⟩, ⟨"Alice", "555", 1000, 100⟩])
        (some [⟨"Alice", "555", 100, 400⟩, ⟨"Alice", "555", 400, 200⟩])) "alice-555" :=
  computeParties_perm_invariant
    [⟨"Alice", "555", 1000, 100⟩, ⟨"Carl", "999", 800, 300⟩]
    [⟨"Carl", "999", 800, 300⟩, ⟨"Alice", "555", 1000, 100⟩]
    [⟨"Alice", "555", 400, 200⟩, ⟨"Alice", "555", 100, 400⟩]
    [⟨"Alice", "555", 100, 400⟩, ⟨"Alice", "555", 400, 200⟩]
    (List.Perm.swap (⟨"Carl", "999", 800, 300⟩ : BillingDoc)
      (⟨"Alice", "555", 1000, 100⟩ : BillingDoc) [])
    (List.Perm.swap (⟨"Alice", "555", 100, 400⟩ : PaymentRec)
      (⟨"Alice", "555", 400, 200⟩ : PaymentRec) [])
    "alice-555"
